import Mathlib

/-!
Verification development for the training orchestrator in src/solver.py of the
aero repository.  The loss computations, best-loss tracking, checkpoint
persistence, optimizer scheduling and metrics assembly of the Solver class are
shallowly embedded below; tensors are modelled at the granularity of one scalar
per tensor together with a flag recording whether gradient flows back to the
generator input (autograd attachment).  With scalar tensors every mean
reduction of a tensor is the tensor itself.
-/

namespace AeroSolver

/-- A torch tensor in the embedding: a scalar payload plus a flag recording
whether gradient flows from it back into the generator. -/
structure T where
  val : ℚ
  att : Bool
deriving DecidableEq, Repr

/-- The zero scalar used to start the Python accumulations (a fresh constant,
so it carries no gradient). -/
def tzero : T := ⟨0, false⟩

/-- The constant one appearing in the hinge losses. -/
def tone : T := ⟨1, false⟩

/-- torch detach: same value, gradient flow to the generator cut. -/
def tdetach (t : T) : T := ⟨t.val, false⟩

/-- Tensor addition; gradient flows if it flows through either operand. -/
def tadd (a b : T) : T := ⟨a.val + b.val, a.att || b.att⟩

/-- Tensor subtraction. -/
def tsub (a b : T) : T := ⟨a.val - b.val, a.att || b.att⟩

/-- F.relu followed by mean, on a scalar tensor. -/
def trelu (t : T) : T := ⟨max t.val 0, t.att⟩

/-- F.l1_loss on scalar tensors: the absolute difference. -/
def tl1 (a b : T) : T := ⟨|a.val - b.val|, a.att || b.att⟩

/-- Multiplication by a Python float constant. -/
def tsmul (c : ℚ) (t : T) : T := ⟨c * t.val, t.att⟩

/-- Division by a Python number. -/
def tdiv (t : T) (c : ℚ) : T := ⟨t.val / c, t.att⟩

/-- Accumulating a list of tensor terms starting from the Python literal 0,
as the += loops of the loss computations do. -/
def tsum (l : List T) : T := l.foldl tadd tzero

/-- Python indexing xs[i] into a list of tensors (total, with a default that
only shows up outside the index range used by the code). -/
def pyAt (l : List T) (i : ℕ) : T := (l[i]?).getD tzero

/-- Python indexing into a list of scales. -/
def pyAtL (l : List (List T)) (i : ℕ) : List T := (l[i]?).getD []

/-- Python scale[-1]: the last element of a per-scale output list. -/
def scaleLast (s : List T) : T := (s.getLast?).getD tzero

/-! Melgan discriminator embedding (Solver._get_melgan_adversarial_loss and
its two helpers, src/solver.py lines 620-666).  The numeric behaviour of the
multi-scale discriminator is abstracted as a function from the input value to
the per-scale lists of intermediate feature maps followed by the final logit;
every output inherits the gradient attachment of the input it was applied
to. -/

/-- Forward pass of the melgan multi-scale discriminator on one input. -/
def melganForward (f : ℚ → List (List ℚ)) (x : T) : List (List T) :=
  (f x.val).map (fun scale => scale.map (fun v => (⟨v, x.att⟩ : T)))

/-- Embedding of Solver._get_melgan_discriminator_loss: the hinge loss
relu(1 + fake[-1]).mean() + relu(1 - real[-1]).mean() accumulated over
scales. -/
def melganDiscriminatorLoss (fake real : List (List T)) : T :=
  tadd (tsum (fake.map (fun scale => trelu (tadd tone (scaleLast scale)))))
    (tsum (real.map (fun scale => trelu (tsub tone (scaleLast scale)))))

/-- Generator-side loss dictionary of the melgan/msd/mpd/spec variants: the
keys present depend on the only_adversarial_loss / only_features_loss
flags. -/
structure GenLosses where
  adversarial : Option T
  features : Option T
deriving DecidableEq, Repr

/-- The layer terms of the melgan feature-matching double loop, flattened in
the accumulation order of the source: for i in range(num_D), for j in
range(len(discriminator_fake[i]) - 1), add
weights * l1_loss(fake[i][j], real[i][j].detach()). -/
def melganFeatureTerms (weights : ℚ) (fake real : List (List T)) (numD : ℕ) :
    List T :=
  (List.range numD).flatMap (fun i =>
    (List.range ((pyAtL fake i).length - 1)).map (fun j =>
      tsmul weights (tl1 (pyAt (pyAtL fake i) j) (tdetach (pyAt (pyAtL real i) j)))))

/-- Embedding of Solver._get_melgan_generator_loss.  weights is the product
of discriminator_weights = 1 / num_D and features_weights =
4 / (n_layers + 1); the flags gate which keys are returned. -/
def melganGeneratorLoss (nLayers numD : ℕ) (lam : ℚ)
    (onlyAdv onlyFeat : Bool) (fake real : List (List T)) : GenLosses :=
  let featuresWeights : ℚ := 4 / ((nLayers : ℚ) + 1)
  let discriminatorWeights : ℚ := 1 / (numD : ℚ)
  let weights := discriminatorWeights * featuresWeights
  let featuresLoss := tsum (melganFeatureTerms weights fake real numD)
  let adversarialLoss :=
    tsum (fake.map (fun scale => trelu (tsub tone (scaleLast scale))))
  if onlyAdv then ⟨some adversarialLoss, none⟩
  else if onlyFeat then ⟨none, some (tsmul lam featuresLoss)⟩
  else ⟨some adversarialLoss, some (tsmul lam featuresLoss)⟩

/-- Embedding of Solver._get_melgan_adversarial_loss: three discriminator
forward passes (detached prediction, target, attached prediction); the
discriminator loss consumes the first two, the generator losses the last
two. -/
def melganAdversarialLoss (f : ℚ → List (List ℚ)) (nLayers numD : ℕ)
    (lam : ℚ) (onlyAdv onlyFeat : Bool) (pr hr : T) : GenLosses × T :=
  let discriminatorFakeDetached := melganForward f (tdetach pr)
  let discriminatorReal := melganForward f hr
  let discriminatorFake := melganForward f pr
  (melganGeneratorLoss nLayers numD lam onlyAdv onlyFeat discriminatorFake
      discriminatorReal,
    melganDiscriminatorLoss discriminatorFakeDetached discriminatorReal)

/-! Hifi-style discriminators (mpd, msd, mbd, spec): a module that, applied to
a pair (y, y_hat), returns final logits and intermediate feature maps for each
input separately, one entry per sub-discriminator.  The forward pass on the
pair is decomposed into the two independent single-input passes. -/

/-- Numeric behaviour of a hifi-style discriminator: final logits per
sub-discriminator and intermediate feature maps per sub-discriminator, as
functions of the input value. -/
structure HifiDisc where
  outs : ℚ → List ℚ
  fmaps : ℚ → List (List ℚ)

/-- Final logits of a hifi-style discriminator on one input of the pair. -/
def discOuts (d : HifiDisc) (x : T) : List T :=
  (d.outs x.val).map (fun v => (⟨v, x.att⟩ : T))

/-- Intermediate feature maps of a hifi-style discriminator on one input. -/
def discFmaps (d : HifiDisc) (x : T) : List (List T) :=
  (d.fmaps x.val).map (fun fm => fm.map (fun v => (⟨v, x.att⟩ : T)))

/-- Modelled from the spec: discriminator_loss from
src/models/discriminators.py is imported by the solver but not under src/.
Least-squares family: the sum over sub-discriminators of
mean((real - 1)^2) + mean(fake^2). -/
def discriminator_loss (reals fakes : List T) : T :=
  tsum ((reals.zip fakes).map (fun rg =>
    tadd ⟨(rg.1.val - 1) ^ 2, rg.1.att⟩ ⟨rg.2.val ^ 2, rg.2.att⟩))

/-- Modelled from the spec: generator_loss from
src/models/discriminators.py (not under src/): the sum over
sub-discriminators of mean((fake - 1)^2). -/
def generator_loss (fakes : List T) : T :=
  tsum (fakes.map (fun g => (⟨(g.val - 1) ^ 2, g.att⟩ : T)))

/-- Modelled from the spec: feature_loss from src/models/discriminators.py
(not under src/): the mean over sub-discriminators of the mean L1 distance
between real (detached) and fake feature maps at every internal layer. -/
def feature_loss (fmapR fmapG : List (List T)) : T :=
  tdiv
    (tsum ((fmapR.zip fmapG).map (fun p =>
      tdiv (tsum ((p.1.zip p.2).map (fun rg => tl1 (tdetach rg.1) rg.2)))
        (p.1.length : ℚ))))
    (fmapR.length : ℚ)

/-- A mel-spectrogram transform applied to a tensor: abstract numeric
behaviour, attachment preserved. -/
def melF (m : ℚ → ℚ) (t : T) : T := ⟨m t.val, t.att⟩

/-- Embedding of Solver._get_hifi_adversarial_loss (src/solver.py lines
669-700): mpd and msd each run once on (hr, pr.detach()) for the
discriminator loss and once on (hr, pr) for the generator loss; the L1
mel-spectrogram term is added to the generator loss unless
only_features_loss is set. -/
def hifiAdversarialLoss (mpd msd : HifiDisc) (mel : ℚ → ℚ) (melLam : ℚ)
    (onlyFeat : Bool) (pr hr : T) : T × T :=
  let lossDiscF := discriminator_loss (discOuts mpd hr) (discOuts mpd (tdetach pr))
  let lossDiscS := discriminator_loss (discOuts msd hr) (discOuts msd (tdetach pr))
  let totalLossDiscriminator := tadd lossDiscS lossDiscF
  let prMel := melF mel pr
  let hrMel := melF mel hr
  let lossMel := tsmul melLam (tl1 hrMel prMel)
  let lossFmF := feature_loss (discFmaps mpd hr) (discFmaps mpd pr)
  let lossFmS := feature_loss (discFmaps msd hr) (discFmaps msd pr)
  let lossGenF := generator_loss (discOuts mpd pr)
  let lossGenS := generator_loss (discOuts msd pr)
  let totalLossGenerator :=
    if onlyFeat then tadd lossFmS lossFmF
    else tadd (tadd (tadd (tadd lossGenS lossGenF) lossFmS) lossFmF) lossMel
  (totalLossGenerator, totalLossDiscriminator)

/-- Embedding of Solver._get_mbd_adversarial_loss (src/solver.py lines
772-790): one discriminator, no flag checks; the generator total is always
loss_gen_s + loss_fm_s + loss_mel. -/
def mbdAdversarialLoss (mbd : HifiDisc) (mel : ℚ → ℚ) (melLam : ℚ)
    (pr hr : T) : T × T :=
  let lossDiscriminator :=
    discriminator_loss (discOuts mbd hr) (discOuts mbd (tdetach pr))
  let prMel := melF mel pr
  let hrMel := melF mel hr
  let lossMel := tsmul melLam (tl1 hrMel prMel)
  let lossFmS := feature_loss (discFmaps mbd hr) (discFmaps mbd pr)
  let lossGenS := generator_loss (discOuts mbd pr)
  (tadd (tadd lossGenS lossFmS) lossMel, lossDiscriminator)

/-- Embedding of Solver._get_msd_adversarial_loss,
Solver._get_mpd_adversarial_loss and Solver._get_spec_adversarial_loss
(src/solver.py lines 703-770), which are identical up to the discriminator
they read from self.dmodels: discriminator loss on (hr, pr.detach()),
generator adversarial and feature terms on (hr, pr), gated by the two
flags. -/
def lsDiscAdversarialLoss (d : HifiDisc) (lam : ℚ)
    (onlyAdv onlyFeat : Bool) (pr hr : T) : GenLosses × T :=
  let dLoss := discriminator_loss (discOuts d hr) (discOuts d (tdetach pr))
  let gFeatLoss := feature_loss (discFmaps d hr) (discFmaps d pr)
  let gAdvLoss := generator_loss (discOuts d pr)
  (if onlyAdv then ⟨some gAdvLoss, none⟩
   else if onlyFeat then ⟨none, some (tsmul lam gFeatLoss)⟩
   else ⟨some gAdvLoss, some (tsmul lam gFeatLoss)⟩, dLoss)

/-! Stft discriminator embedding (Solver._get_stft_adversarial_loss and its
helpers, src/solver.py lines 792-823): a single-scale discriminator returning
a list of intermediate feature maps followed by the final logit. -/

/-- Forward pass of the stft discriminator on one spectrogram input. -/
def stftForward (g : ℚ → List ℚ) (x : T) : List T :=
  (g x.val).map (fun v => (⟨v, x.att⟩ : T))

/-- Embedding of Solver._get_stft_discriminator_loss. -/
def stftDiscriminatorLoss (fake real : List T) : T :=
  tadd (trelu (tadd tone (scaleLast fake))) (trelu (tsub tone (scaleLast real)))

/-- Embedding of Solver.stft_feature_loss (src/solver.py lines 818-823): the
layer terms are accumulated unweighted and the total is divided by
n_internal_layers = len(discriminator_fake) - 1. -/
def stft_feature_loss (real fake : List T) : T :=
  let nInternalLayers := fake.length - 1
  tdiv
    (tsum ((List.range nInternalLayers).map (fun i =>
      tl1 (pyAt fake i) (tdetach (pyAt real i)))))
    (nInternalLayers : ℚ)

/-- Embedding of Solver._get_stft_generator_loss. -/
def stftGeneratorLoss (lam : ℚ) (fake real : List T) : T :=
  tadd (trelu (tsub tone (scaleLast fake)))
    (tsmul lam (stft_feature_loss real fake))

/-- Embedding of Solver._get_stft_adversarial_loss: the detached prediction
(contiguous is a no-op on values) feeds the discriminator loss, the attached
prediction feeds the generator loss. -/
def stftAdversarialLoss (g : ℚ → List ℚ) (lam : ℚ) (prSpec hrSpec : T) :
    T × T :=
  let discriminatorFakeDetached := stftForward g (tdetach prSpec)
  let discriminatorReal := stftForward g hrSpec
  let discriminatorFake := stftForward g prSpec
  (stftGeneratorLoss lam discriminatorFake discriminatorReal,
    stftDiscriminatorLoss discriminatorFakeDetached discriminatorReal)

/-- Feature-matching per-layer weight as the claim about the hinge-family
variants states it: (4 / (num_internal_layers + 1)) * (1 / num_scales). -/
def claimedFeatureWeight (numInternalLayers numScales : ℕ) : ℚ :=
  (4 / ((numInternalLayers : ℚ) + 1)) * (1 / (numScales : ℚ))

/-- Defined from the claim wording for the vocoder-style variants: identical
to hifiAdversarialLoss except that the generator total includes the mel term
regardless of the configuration flags. -/
def hifiAdversarialLossPerClaim (mpd msd : HifiDisc) (mel : ℚ → ℚ)
    (melLam : ℚ) (onlyFeat : Bool) (pr hr : T) : T × T :=
  let lossDiscF := discriminator_loss (discOuts mpd hr) (discOuts mpd (tdetach pr))
  let lossDiscS := discriminator_loss (discOuts msd hr) (discOuts msd (tdetach pr))
  let totalLossDiscriminator := tadd lossDiscS lossDiscF
  let prMel := melF mel pr
  let hrMel := melF mel hr
  let lossMel := tsmul melLam (tl1 hrMel prMel)
  let lossFmF := feature_loss (discFmaps mpd hr) (discFmaps mpd pr)
  let lossFmS := feature_loss (discFmaps msd hr) (discFmaps msd pr)
  let lossGenF := generator_loss (discOuts mpd pr)
  let lossGenS := generator_loss (discOuts msd pr)
  let totalLossGenerator :=
    if onlyFeat then tadd (tadd lossFmS lossFmF) lossMel
    else tadd (tadd (tadd (tadd lossGenS lossGenF) lossFmS) lossFmF) lossMel
  (totalLossGenerator, totalLossDiscriminator)

/-! Best-loss tracking of Solver.train (src/solver.py lines 222-223 and
241-266): per-epoch metric records are reduced to their optional
valid_evaluation_loss entry, the only field the tracking reads back. -/

/-- Modelled from the spec: pull_metric from src/utils.py (imported by the
solver but not under src/) collects the value of the tracked metric from
every history record that contains it. -/
def pull_metric (history : List (Option ℚ)) : List ℚ := history.filterMap id

/-- Modelled from the spec: copy_state from src/utils.py (not under src/)
produces an independent deep copy of model parameters; in this pure embedding
values are immutable, so the copy is the value itself. -/
def copy_state {P : Type} (p : P) : P := p

/-- The per-run training-loop state read and written by the best-loss
tracking: the recorded history, the best_loss local and best_states. -/
structure TrainLoop (P : Type) where
  history : List (Option ℚ)
  bestLoss : Option ℚ
  bestStates : Option P
deriving DecidableEq, Repr

/-- State at the top of Solver.train for a fresh run: empty history,
best_loss = None, empty best_states. -/
def trainLoopInit {P : Type} : TrainLoop P := ⟨[], none, none⟩

/-- Python min over the nonempty list prior ++ [x]. -/
def pymin (prior : List ℚ) (x : ℚ) : ℚ := prior.foldr min x

/-- One epoch of Solver.train as seen by the best-loss tracking.  A none
epoch runs no cross validation: the appended metrics record has no
valid_evaluation_loss entry and the tracking variables are untouched.  A
some (l, p) epoch records evaluation loss l with live parameters p:
best_loss = min(pull_metric(history) + [l]) and best_states is freshly
copied exactly when l equals that minimum (src/solver.py lines 262-266). -/
def epochStep {P : Type} (s : TrainLoop P) : Option (ℚ × P) → TrainLoop P
  | none => { s with history := s.history ++ [none] }
  | some (l, p) =>
    let best := pymin (pull_metric s.history) l
    { history := s.history ++ [some l]
      bestLoss := some best
      bestStates := if l = best then some (copy_state p) else s.bestStates }

/-- Running Solver.train over a sequence of epochs from the fresh state. -/
def trainRun {P : Type} (es : List (Option (ℚ × P))) : TrainLoop P :=
  es.foldl epochStep trainLoopInit

/-! Checkpoint persistence (Solver._serialize, src/solver.py lines 144-165):
modelled as a list of filesystem operations over an abstract store from paths
to file contents.  A crash is a prefix of the operation list. -/

/-- The serialized checkpoint package: the five keys written by _serialize
(models, optimizers, history, best_states, args). -/
structure Package (M O H B A : Type) where
  models : M
  optimizers : O
  history : H
  bestStates : B
  args : A
deriving DecidableEq, Repr

/-- Content of a file written by _serialize: either the full checkpoint
package or a per-model best artifact. -/
inductive FileContent (M O H B A Cm : Type) where
  | package (pkg : Package M O H B A)
  | bestModel (c : Cm)
deriving DecidableEq, Repr

/-- A filesystem operation: torch.save to a path, or os.rename. -/
inductive FOp (C : Type) where
  | write (p : String) (c : C)
  | rename (src dst : String)
deriving DecidableEq, Repr

/-- Effect of one operation on the store: write sets the path, rename moves
the source content to the destination and removes the source. -/
def applyFOp {C : Type} (fs : String → Option C) : FOp C → String → Option C
  | FOp.write p c => fun q => if q = p then some c else fs q
  | FOp.rename s d => fun q => if q = d then fs s else if q = s then none else fs q

/-- Running a list of filesystem operations in order. -/
def runFOps {C : Type} (fs : String → Option C) (ops : List (FOp C)) :
    String → Option C :=
  ops.foldl applyFOp fs

/-- Whether an operation reads or writes the given path. -/
def touches {C : Type} (p : String) : FOp C → Prop
  | FOp.write q _ => q = p
  | FOp.rename s d => s = p ∨ d = p

/-- Canonical path of the per-model best artifact:
os.path.join(best_file.parent, model_name + underscore + best_file.name). -/
def bestArtifactPath (bestParent bestName modelName : String) : String :=
  bestParent ++ "/" ++ modelName ++ "_" ++ bestName

/-- The operation list performed by Solver._serialize: write the full package
to checkpoint_file + ".tmp" and rename it onto checkpoint_file; then, for
each entry of best_states, write the serialized model carrying that best
state to a ".tmp" path and rename it onto the per-model best artifact path.
modelWithBest abstracts the serialized model with its state replaced by the
best state. -/
def serializeOps {M O H B A Cm : Type} (checkpointFile bestParent bestName : String)
    (m : M) (o : O) (h : H) (a : A) (bestStates : List (String × B))
    (modelWithBest : String → B → Cm) :
    List (FOp (FileContent M O H (List (String × B)) A Cm)) :=
  [FOp.write (checkpointFile ++ ".tmp")
      (FileContent.package ⟨m, o, h, bestStates, a⟩),
    FOp.rename (checkpointFile ++ ".tmp") checkpointFile]
  ++ bestStates.flatMap (fun nb =>
    [FOp.write (bestArtifactPath bestParent bestName nb.1 ++ ".tmp")
        (FileContent.bestModel (modelWithBest nb.1 nb.2)),
      FOp.rename (bestArtifactPath bestParent bestName nb.1 ++ ".tmp")
        (bestArtifactPath bestParent bestName nb.1)])

/-! Adversarial optimizer scheduling (Solver._optimize_adversarial,
src/solver.py lines 832-849).  Python dynamic typing is modelled where it
decides control flow: sum of an empty list of tensor losses is the int 0,
which has no backward method. -/

/-- A Python numeric value reaching the backward call: the int 0 produced by
sum over an empty list, or a loss tensor. -/
inductive PyNum where
  | intv (n : ℤ)
  | tensor (t : T)
deriving DecidableEq, Repr

/-- Python builtin sum over a list of tensors: starts from the int 0, so the
empty sum is an int, and a nonempty sum is a tensor. -/
def pySum (l : List T) : PyNum :=
  match l with
  | [] => PyNum.intv 0
  | x :: xs => PyNum.tensor (xs.foldl tadd x)

/-- An optimizer call performed by the scheduler. -/
inductive OptimAct where
  | zeroGrad (name : String)
  | backward
  | step (name : String)
deriving DecidableEq, Repr

/-- Embedding of Solver._optimize_adversarial on the discriminator-losses
mapping (as an association list).  The result is either a raised exception
(fatal) or the ordered optimizer calls the completed call performed.  In the
single-discriminator branch the IndexError from list(values)[0] is raised
before any backward runs. -/
def optimizeAdversarial (multipleDiscriminatorsMode jointDiscOptimizers : Bool)
    (discriminatorLosses : List (String × T)) : Except String (List OptimAct) :=
  if multipleDiscriminatorsMode then
    if jointDiscOptimizers then
      match pySum (discriminatorLosses.map Prod.snd) with
      | PyNum.intv _ =>
        Except.error "AttributeError: int object has no attribute backward"
      | PyNum.tensor _ =>
        Except.ok [OptimAct.zeroGrad "disc_optimizer", OptimAct.backward,
          OptimAct.step "disc_optimizer"]
    else
      Except.ok (discriminatorLosses.flatMap (fun nl =>
        [OptimAct.zeroGrad nl.1, OptimAct.backward, OptimAct.step nl.1]))
  else
    match discriminatorLosses with
    | [] => Except.error "IndexError: list index out of range"
    | _ :: _ =>
      Except.ok [OptimAct.zeroGrad "disc_optimizer", OptimAct.backward,
        OptimAct.step "disc_optimizer"]

/-! Resume policy (Solver._reset, src/solver.py lines 183-202). -/

/-- Where _reset decides to load from. -/
inductive LoadSource where
  | canonical
  | external
  | noLoad
deriving DecidableEq, Repr

/-- The decision triple of Solver._reset: (source, load_best, keep_history),
mirroring the initialisation and the two conditional branches.  Python
truthiness of the continue_from string is nonemptiness. -/
def resetSource (checkpoint ckptExists restart : Bool) (continueFrom : String)
    (continueBest keepHistoryArg : Bool) : LoadSource × Bool × Bool :=
  if checkpoint && ckptExists && !restart then (LoadSource.canonical, false, true)
  else if continueFrom ≠ "" then (LoadSource.external, continueBest, keepHistoryArg)
  else (LoadSource.noLoad, false, true)

/-- Effect of _reset on the solver state, given the decision triple and the
contents of the package that would be loaded: when a load happens, history is
taken from the package exactly when keep_history holds and best_states is
always taken from the package; otherwise the constructor defaults (empty
history, no best states) remain. -/
def resetState {Hm B : Type} (r : LoadSource × Bool × Bool)
    (pkgHistory : List Hm) (pkgBest : B) : List Hm × Option B :=
  match r.1 with
  | LoadSource.noLoad => ([], none)
  | _ => ((if r.2.2 then pkgHistory else []), some pkgBest)

/-! Best-states discarding at the start of Solver.train (src/solver.py lines
222-223) and the evaluate-on-best selection (lines 287-292). -/

/-- The dictionary key of the generator model. -/
def GENERATOR_KEY : String := "generator"

/-- The solver fields touched by the start of train: best_states (a dict,
modelled as an association list, empty meaning falsy) and the best_loss
local. -/
structure SolverBest (P : Type) where
  bestStates : List (String × P)
  bestLoss : Option ℚ
deriving DecidableEq, Repr

/-- Lines 222-223 of Solver.train: best_loss = None and
self.best_states = empty dict, unconditionally, whatever _reset restored. -/
def trainInitReset {P : Type} (_s : SolverBest P) : SolverBest P :=
  { bestStates := [], bestLoss := none }

/-- Lines 287-292 of Solver.train: use the best generator state when
evaluate_on_best is set and best_states is truthy (nonempty), else the live
state; a missing generator key would raise, modelled as none. -/
def chooseEvalState {P : Type} (evaluateOnBest : Bool)
    (bestStates : List (String × P)) (live : P) : Option P :=
  if evaluateOnBest && !bestStates.isEmpty then bestStates.lookup GENERATOR_KEY
  else some live

/-! Filename accumulation in Solver._get_valid_losses_on_test_data
(src/solver.py lines 425-433 and 478). -/

/-- Python list += str: the string is an iterable of its characters, so each
character is appended as a one-character string. -/
def pyListPlusEqStr (l : List String) (s : String) : List String :=
  l ++ s.data.map (fun c => String.singleton c)

/-- The total_filenames accumulator over the per-batch filename stems. -/
def totalFilenamesOf (filenames : List String) : List String :=
  filenames.foldl pyListPlusEqStr []

/-- The second return value of _get_valid_losses_on_test_data:
total_filenames when enhance is set, else None. -/
def validLossesEnhancedFilenames (enhance : Bool) (filenames : List String) :
    Option (List String) :=
  if enhance then some (totalFilenamesOf filenames) else none

/-! Metrics assembly of Solver.train (src/solver.py lines 235, 270-276,
407-410): Python dicts modelled as functions from keys to optional values. -/

/-- Python truthiness of an optional float: None and 0.0 are falsy. -/
def pyTruthy (v : Option ℚ) : Bool :=
  match v with
  | none => false
  | some x => decide (x ≠ 0)

/-- The empty dict. -/
def dictEmpty : String → Option ℚ := fun _ => none

/-- Setting one key of a dict. -/
def dictInsert (m : String → Option ℚ) (k : String) (v : ℚ) :
    String → Option ℚ :=
  fun q => if q = k then some v else m q

/-- Merging two dicts, entries of the second winning (as in a double-splat
literal). -/
def dictMerge (m1 m2 : String → Option ℚ) : String → Option ℚ :=
  fun q =>
    match m2 q with
    | some v => some v
    | none => m1 q

/-- Building a dict from an association list, later entries winning (Python
dict construction). -/
def dictOfList (l : List (String × ℚ)) : String → Option ℚ :=
  l.foldl (fun m kv => dictInsert m kv.1 kv.2) dictEmpty

/-- The avg_losses dictionary returned by Solver._run_one_epoch (lines
407-410): the total key, then the evaluation key with the same average, then
the accumulated per-loss totals divided by the batch count. -/
def avgLosses (totalLoss : ℚ) (numBatches : ℕ) (perLoss : List (String × ℚ)) :
    List (String × ℚ) :=
  ("total", totalLoss / (numBatches : ℚ)) ::
    ("evaluation", totalLoss / (numBatches : ℚ)) ::
    perLoss.map (fun kv => (kv.1, kv.2 / (numBatches : ℚ)))

/-- Line 235 of Solver.train: every training loss key gets the _loss
suffix. -/
def renameTrainLosses (l : List (String × ℚ)) : List (String × ℚ) :=
  l.map (fun kv => (kv.1 ++ "_loss", kv.2))

/-- The evaluation-loss metrics key. -/
def METRICS_KEY_EVALUATION_LOSS : String := "evaluation_loss"

/-- The best-loss metrics key. -/
def METRICS_KEY_BEST_LOSS : String := "best_loss"

/-- Lines 270-276 of Solver.train: the epoch metrics merge the renamed
training losses with the valid losses, then add the evaluation_loss and
best_loss keys gated on Python truthiness of the respective values. -/
def epochMetrics (trainLosses validLosses : List (String × ℚ))
    (evaluationLoss bestLoss : Option ℚ) : String → Option ℚ :=
  let m := dictMerge (dictOfList (renameTrainLosses trainLosses))
    (dictOfList validLosses)
  let m2 := if pyTruthy evaluationLoss then
      dictInsert m METRICS_KEY_EVALUATION_LOSS (evaluationLoss.getD 0)
    else m
  if pyTruthy bestLoss then
    dictInsert m2 METRICS_KEY_BEST_LOSS (bestLoss.getD 0)
  else m2

/-! Helper lemmas about the tensor accumulations. -/

theorem foldl_tadd_att (l : List T) (a : T) :
    (l.foldl tadd a).att = (a.att || l.any fun t => t.att) := by
  induction l generalizing a with
  | nil => simp
  | cons x xs ih => simp [ih, tadd, Bool.or_assoc]

theorem tsum_att (l : List T) : (tsum l).att = l.any fun t => t.att := by
  simp [tsum, foldl_tadd_att, tzero]

theorem foldl_tadd_val (l : List T) (a : T) :
    (l.foldl tadd a).val = a.val + (l.map fun t => t.val).sum := by
  induction l generalizing a with
  | nil => simp
  | cons x xs ih => simp [ih, tadd]; ring

theorem tsum_val (l : List T) : (tsum l).val = (l.map fun t => t.val).sum := by
  simp [tsum, foldl_tadd_val, tzero]

theorem list_sum_map_mul (c : ℚ) {α : Type} (f : α → ℚ) (l : List α) :
    (l.map fun x => c * f x).sum = c * (l.map f).sum := by
  induction l with
  | nil => simp
  | cons x xs ih => simp [ih]; ring

theorem list_any_map {A B : Type} (f : A → B) (p : B → Bool) (l : List A) :
    (l.map f).any p = l.any fun a => p (f a) := by
  induction l with
  | nil => rfl
  | cons x xs ih => simp [ih]

theorem generator_loss_att (fakes : List T) :
    (generator_loss fakes).att = fakes.any fun t => t.att := by
  simp [generator_loss, tsum_att, list_any_map, Function.comp_def]

theorem discriminator_loss_att (reals fakes : List T) :
    (discriminator_loss reals fakes).att
      = (reals.zip fakes).any fun rg => rg.1.att || rg.2.att := by
  simp [discriminator_loss, tsum_att, list_any_map, tadd]

theorem feature_loss_att (fmapR fmapG : List (List T)) :
    (feature_loss fmapR fmapG).att
      = (fmapR.zip fmapG).any fun p =>
          (p.1.zip p.2).any fun rg => rg.2.att := by
  simp [feature_loss, tdiv, tsum_att, list_any_map, tl1, tdetach]

theorem discOuts_att (d : HifiDisc) (x : T) :
    ∀ t ∈ discOuts d x, t.att = x.att := by
  intro t ht
  simp [discOuts] at ht
  obtain ⟨v, _, rfl⟩ := ht
  rfl

theorem discFmaps_att (d : HifiDisc) (x : T) :
    ∀ fm ∈ discFmaps d x, ∀ t ∈ fm, t.att = x.att := by
  intro fm hfm t ht
  simp [discFmaps] at hfm
  obtain ⟨l, _, rfl⟩ := hfm
  simp at ht
  obtain ⟨v, _, rfl⟩ := ht
  rfl

theorem foldl_pyListPlusEqStr (l : List String) (init : List String) :
    l.foldl pyListPlusEqStr init
      = init ++ (l.flatMap String.data).map (fun c => String.singleton c) := by
  induction l generalizing init with
  | nil => simp
  | cons s l ih => simp [pyListPlusEqStr, ih]

theorem dictOfList_foldl (l : List (String × ℚ)) (m : String → Option ℚ)
    (q : String) :
    (l.foldl (fun m kv => dictInsert m kv.1 kv.2) m) q
      = l.foldl (fun acc kv => if q = kv.1 then some kv.2 else acc) (m q) := by
  induction l generalizing m with
  | nil => rfl
  | cons kv l ih => simp [List.foldl_cons, ih, dictInsert]

theorem foldl_lookup_keep {l : List (String × ℚ)} {q : String}
    (acc : Option ℚ) (h : ∀ kv ∈ l, q ≠ kv.1) :
    l.foldl (fun acc kv => if q = kv.1 then some kv.2 else acc) acc = acc := by
  induction l generalizing acc with
  | nil => rfl
  | cons kv l ih =>
    rw [List.foldl_cons, if_neg (h kv (by simp))]
    exact ih acc (fun kv2 h2 => h kv2 (by simp [h2]))

/-- C8: every invocation of train unconditionally resets best_states to the
empty mapping and best_loss to None before the epoch loop begins, so any
best_states restored from a checkpoint at construction are discarded, and the
evaluate-on-best selection falls back to the live parameters until a new best
is recorded. -/
theorem c8_train_discards_restored_best {P : Type} (s : SolverBest P)
    (evaluateOnBest : Bool) (live : P) :
    (trainInitReset s).bestStates = []
    ∧ (trainInitReset s).bestLoss = none
    ∧ chooseEvalState evaluateOnBest (trainInitReset s).bestStates live
        = some live := by
  refine ⟨rfl, rfl, ?_⟩
  simp [chooseEvalState, trainInitReset]

/-- C9: the filename accumulator of _get_valid_losses_on_test_data extends a
list with a string via +=, which appends each character of the filename as a
separate one-character string, so the enhanced-filenames list returned when
enhancement is enabled contains one-character strings rather than whole
filenames. -/
theorem c9_filenames_split_into_chars (filenames : List String) :
    totalFilenamesOf filenames
      = (filenames.flatMap String.data).map (fun c => String.singleton c)
    ∧ (∀ s ∈ totalFilenamesOf filenames, s.length = 1)
    ∧ validLossesEnhancedFilenames true filenames
        = some ((filenames.flatMap String.data).map (fun c => String.singleton c)) := by
  have h : totalFilenamesOf filenames
      = (filenames.flatMap String.data).map (fun c => String.singleton c) := by
    simp [totalFilenamesOf, foldl_pyListPlusEqStr]
  refine ⟨h, ?_, ?_⟩
  · intro s hs
    rw [h] at hs
    simp at hs
    obtain ⟨c, _, rfl⟩ := hs
    exact String.length_singleton c
  · simp [validLossesEnhancedFilenames, h]

/-- C5 counterexample: with multiple discriminators and separate optimizers,
calling the adversarial optimization step on an empty discriminator-loss
mapping does not fail: it completes as a silent no-op performing no optimizer
call, contrary to the claim that all three policies fail fatally. -/
theorem c5_counterexample :
    optimizeAdversarial true false [] = Except.ok [] := rfl

/-- C5 amended: on an empty discriminator-loss mapping the single policy
raises an IndexError and the joint policy raises an AttributeError (sum of an
empty list is the int 0, which has no backward), but the
multiple-discriminators-with-separate-optimizers policy completes as a silent
no-op with no optimizer action. -/
theorem c5_amended :
    (∀ j : Bool, optimizeAdversarial false j []
        = Except.error "IndexError: list index out of range")
    ∧ optimizeAdversarial true true []
        = Except.error "AttributeError: int object has no attribute backward"
    ∧ optimizeAdversarial true false [] = Except.ok [] := by
  exact ⟨fun j => rfl, rfl, rfl⟩

/-- C6: the checkpoint source to resume from is chosen with the fixed
precedence: canonical checkpoint when checkpointing is enabled, the file
exists and no restart was requested (keeping history and not loading best);
otherwise the external continue-from path when given, honoring the best-only
and keep-history options; otherwise a fresh start with empty history and no
loading. -/
theorem c6_resume_precedence (checkpoint ckptExists restart : Bool)
    (continueFrom : String) (continueBest keepHistoryArg : Bool)
    {Hm B : Type} (pkgHistory : List Hm) (pkgBest : B) :
    ((checkpoint && ckptExists && !restart) = true →
      resetSource checkpoint ckptExists restart continueFrom continueBest
          keepHistoryArg = (LoadSource.canonical, false, true)
      ∧ resetState (resetSource checkpoint ckptExists restart continueFrom
          continueBest keepHistoryArg) pkgHistory pkgBest
          = (pkgHistory, some pkgBest))
    ∧ ((checkpoint && ckptExists && !restart) = false → continueFrom ≠ "" →
      resetSource checkpoint ckptExists restart continueFrom continueBest
          keepHistoryArg = (LoadSource.external, continueBest, keepHistoryArg)
      ∧ resetState (resetSource checkpoint ckptExists restart continueFrom
          continueBest keepHistoryArg) pkgHistory pkgBest
          = ((if keepHistoryArg then pkgHistory else []), some pkgBest))
    ∧ ((checkpoint && ckptExists && !restart) = false → continueFrom = "" →
      resetSource checkpoint ckptExists restart continueFrom continueBest
          keepHistoryArg = (LoadSource.noLoad, false, true)
      ∧ resetState (resetSource checkpoint ckptExists restart continueFrom
          continueBest keepHistoryArg) pkgHistory pkgBest = ([], none)) := by
  refine ⟨?_, ?_, ?_⟩
  · intro hc
    rw [resetSource, if_pos hc]
    exact ⟨rfl, rfl⟩
  · intro hc hcf
    rw [resetSource, if_neg (by simp [hc]), if_pos hcf]
    exact ⟨rfl, rfl⟩
  · intro hc hcf
    rw [resetSource, if_neg (by simp [hc]), if_neg (by simp [hcf])]
    exact ⟨rfl, rfl⟩

/-- C6 witness: concrete instances exercising each branch of the resume
precedence. -/
theorem c6_resume_precedence_witness :
    ((true && true && !false) = true
      ∧ (resetSource true true false "other.th" true false
          = (LoadSource.canonical, false, true)
        ∧ resetState (resetSource true true false "other.th" true false)
            [(5 : ℚ)] (7 : ℚ) = ([(5 : ℚ)], some (7 : ℚ))))
    ∧ ((false && true && !false) = false ∧ "other.th" ≠ ""
      ∧ (resetSource false true false "other.th" true false
          = (LoadSource.external, true, false)
        ∧ resetState (resetSource false true false "other.th" true false)
            [(5 : ℚ)] (7 : ℚ) = (([] : List ℚ), some (7 : ℚ))))
    ∧ ((false && true && !false) = false ∧ "" = ""
      ∧ (resetSource false true false "" true false
          = (LoadSource.noLoad, false, true)
        ∧ resetState (resetSource false true false "" true false)
            [(5 : ℚ)] (7 : ℚ) = (([] : List ℚ), none))) := by
  refine ⟨⟨by decide, ?_⟩, ⟨by decide, by decide, ?_⟩, ⟨by decide, rfl, ?_⟩⟩
  · exact (c6_resume_precedence true true false "other.th" true false
      [(5 : ℚ)] (7 : ℚ)).1 (by decide)
  · have h := (c6_resume_precedence false true false "other.th" true false
      [(5 : ℚ)] (7 : ℚ)).2.1 (by decide) (by decide)
    simpa using h
  · exact (c6_resume_precedence false true false "" true false
      [(5 : ℚ)] (7 : ℚ)).2.2 (by decide) rfl

/-- C10 counterexample: with the current epoch evaluation loss exactly 0.0,
the evaluation_loss key is not omitted from the epoch metrics: the training
pass always contributes an evaluation_loss entry (the renamed evaluation key
of _run_one_epoch), which remains in the metrics with the training average as
its value. -/
theorem c10_counterexample :
    epochMetrics (avgLosses 6 2 []) [] (some 0) none
      METRICS_KEY_EVALUATION_LOSS = some 3 := by
  simp [epochMetrics, avgLosses, renameTrainLosses, dictMerge, dictOfList,
    dictInsert, dictEmpty, pyTruthy, METRICS_KEY_EVALUATION_LOSS,
    METRICS_KEY_BEST_LOSS]
  norm_num

/-- C10 amended: when the evaluation loss is exactly 0.0 the truthiness-gated
update is skipped, so the evaluation_loss key keeps the value contributed by
the merged training and validation dictionaries (in particular the training
average total / n, which is always present); the best_loss key, which no
other dictionary contributes, is genuinely omitted when best_loss is 0.0 or
None. -/
theorem c10_truthiness_gating :
    (∀ (tl vl : List (String × ℚ)) (bl : Option ℚ),
      epochMetrics tl vl (some 0) bl METRICS_KEY_EVALUATION_LOSS
        = dictMerge (dictOfList (renameTrainLosses tl)) (dictOfList vl)
            METRICS_KEY_EVALUATION_LOSS)
    ∧ (∀ (total : ℚ) (n : ℕ) (tl vl : List (String × ℚ)) (bl : Option ℚ),
      (∀ kv ∈ tl, kv.1 ++ "_loss" ≠ METRICS_KEY_EVALUATION_LOSS) →
      dictOfList vl METRICS_KEY_EVALUATION_LOSS = none →
      epochMetrics (avgLosses total n tl) vl (some 0) bl
          METRICS_KEY_EVALUATION_LOSS = some (total / (n : ℚ)))
    ∧ (∀ (tl vl : List (String × ℚ)) (el : Option ℚ),
      dictOfList (renameTrainLosses tl) METRICS_KEY_BEST_LOSS = none →
      dictOfList vl METRICS_KEY_BEST_LOSS = none →
      epochMetrics tl vl el (some 0) METRICS_KEY_BEST_LOSS = none
      ∧ epochMetrics tl vl el none METRICS_KEY_BEST_LOSS = none) := by
  have hkey : (METRICS_KEY_EVALUATION_LOSS = METRICS_KEY_BEST_LOSS) = False := by
    simp [METRICS_KEY_EVALUATION_LOSS, METRICS_KEY_BEST_LOSS]
  refine ⟨?_, ?_, ?_⟩
  · intro tl vl bl
    simp only [epochMetrics, pyTruthy]
    cases bl with
    | none => simp
    | some b =>
      by_cases hb : b = 0
      · simp [hb]
      · simp [hb, dictInsert, hkey]
  · intro total n tl vl bl htl hvl
    have h1 : epochMetrics (avgLosses total n tl) vl (some 0) bl
        METRICS_KEY_EVALUATION_LOSS
        = dictMerge (dictOfList (renameTrainLosses (avgLosses total n tl)))
            (dictOfList vl) METRICS_KEY_EVALUATION_LOSS := by
      simp only [epochMetrics, pyTruthy]
      cases bl with
      | none => simp
      | some b =>
        by_cases hb : b = 0
        · simp [hb]
        · simp [hb, dictInsert, hkey]
    rw [h1]
    simp only [dictMerge, hvl]
    rw [dictOfList, dictOfList_foldl]
    simp only [renameTrainLosses, avgLosses, List.map_cons, List.foldl_cons,
      dictEmpty]
    rw [if_pos (by decide : METRICS_KEY_EVALUATION_LOSS = "evaluation" ++ "_loss")]
    rw [List.map_map, foldl_lookup_keep]
    intro kv hkv
    simp at hkv
    obtain ⟨a, b2, hab, rfl⟩ := hkv
    exact fun hcontra => htl (a, b2) hab hcontra.symm
  · intro tl vl el h1 h2
    simp only [METRICS_KEY_BEST_LOSS] at h1 h2
    have hmain : ∀ bl : Option ℚ, pyTruthy bl = false →
        epochMetrics tl vl el bl METRICS_KEY_BEST_LOSS = none := by
      intro bl hbl
      simp only [epochMetrics, hbl]
      cases hel : pyTruthy el with
      | false =>
        simp [hel, dictMerge, METRICS_KEY_BEST_LOSS, h1, h2]
      | true =>
        simp [hel, dictInsert, dictMerge, METRICS_KEY_BEST_LOSS,
          METRICS_KEY_EVALUATION_LOSS, h1, h2]
    exact ⟨hmain (some 0) (by simp [pyTruthy]), hmain none rfl⟩

/-- C10 witness: concrete instances of the amended statements, with a
training loss dictionary containing a generator term and a validation
dictionary containing only valid-prefixed keys. -/
theorem c10_truthiness_gating_witness :
    ((∀ kv ∈ ([("generator_l1", (4 : ℚ))] : List (String × ℚ)),
        kv.1 ++ "_loss" ≠ METRICS_KEY_EVALUATION_LOSS)
      ∧ dictOfList [("valid_evaluation_loss", (0 : ℚ))]
          METRICS_KEY_EVALUATION_LOSS = none)
    ∧ epochMetrics (avgLosses 6 2 [("generator_l1", (4 : ℚ))])
        [("valid_evaluation_loss", (0 : ℚ))] (some 0) none
        METRICS_KEY_EVALUATION_LOSS = some (6 / (2 : ℚ))
    ∧ (dictOfList (renameTrainLosses [("total", (3 : ℚ))])
          METRICS_KEY_BEST_LOSS = none
      ∧ dictOfList [("valid_evaluation_loss", (0 : ℚ))]
          METRICS_KEY_BEST_LOSS = none)
    ∧ epochMetrics [("total", (3 : ℚ))] [("valid_evaluation_loss", (0 : ℚ))]
        (some 1) (some 0) METRICS_KEY_BEST_LOSS = none := by
  refine ⟨⟨by decide, by decide⟩, ?_, ⟨by decide, by decide⟩, ?_⟩
  · exact c10_truthiness_gating.2.1 6 2 [("generator_l1", (4 : ℚ))]
      [("valid_evaluation_loss", (0 : ℚ))] none (by decide) (by decide)
  · exact (c10_truthiness_gating.2.2 [("total", (3 : ℚ))]
      [("valid_evaluation_loss", (0 : ℚ))] (some 1) (by decide) (by decide)).1

theorem pymin_le (prior : List ℚ) (x : ℚ) : pymin prior x ≤ x := by
  induction prior with
  | nil => exact le_refl x
  | cons a l ih => exact le_trans (min_le_right a (pymin l x)) ih

theorem pymin_le_mem (prior : List ℚ) (x : ℚ) :
    ∀ y ∈ prior, pymin prior x ≤ y := by
  induction prior with
  | nil => intro y hy; cases hy
  | cons a l ih =>
    intro y hy
    rcases List.mem_cons.mp hy with h | h
    · rw [h]; exact min_le_left a (pymin l x)
    · exact le_trans (min_le_right a (pymin l x)) (ih y h)

theorem pymin_mem (prior : List ℚ) (x : ℚ) :
    pymin prior x ∈ prior ∨ pymin prior x = x := by
  induction prior with
  | nil => exact Or.inr rfl
  | cons a l ih =>
    rcases le_total a (pymin l x) with h | h
    · left
      rw [show pymin (a :: l) x = min a (pymin l x) from rfl, min_eq_left h]
      exact List.mem_cons_self a l
    · rw [show pymin (a :: l) x = min a (pymin l x) from rfl, min_eq_right h]
      rcases ih with h2 | h2
      · exact Or.inl (List.mem_cons_of_mem a h2)
      · exact Or.inr h2

theorem pymin_eq_self_iff (prior : List ℚ) (x : ℚ) :
    x = pymin prior x ↔ ∀ y ∈ prior, x ≤ y := by
  constructor
  · intro h y hy
    rw [h]
    exact pymin_le_mem prior x y hy
  · intro h
    induction prior with
    | nil => rfl
    | cons a l ih =>
      rw [show pymin (a :: l) x = min a (pymin l x) from rfl,
        ← ih (fun y hy => h y (List.mem_cons_of_mem a hy)),
        min_eq_right (h a (List.mem_cons_self a l))]

theorem epochStep_history {P : Type} (s : TrainLoop P) (e : Option (ℚ × P)) :
    (epochStep s e).history = s.history ++ [e.map Prod.fst] := by
  cases e with
  | none => rfl
  | some lp => rfl

theorem foldl_epochStep_history {P : Type} (es : List (Option (ℚ × P)))
    (s : TrainLoop P) :
    (es.foldl epochStep s).history
      = s.history ++ es.map (Option.map Prod.fst) := by
  induction es generalizing s with
  | nil => simp
  | cons e es ih =>
    rw [List.foldl_cons, ih, epochStep_history, List.map_cons,
      List.append_assoc, List.singleton_append]

theorem pull_metric_map_fst {P : Type} (es : List (Option (ℚ × P))) :
    pull_metric (es.map (Option.map Prod.fst))
      = (es.filterMap id).map Prod.fst := by
  induction es with
  | nil => rfl
  | cons e es ih =>
    cases e with
    | none => simpa [pull_metric] using ih
    | some lp => simpa [pull_metric] using ih

/-- C2: after epoch k of a run whose cross-validating epochs recorded the
evaluation losses l0..lk, the tracked best loss equals min(l0..lk) (it is a
recorded loss and a lower bound of all of them), and best_states is refreshed
with a copy of the live parameters of epoch k exactly when lk is less than or
equal to every previously recorded loss, so a tie is resolved in favor of
epoch k; otherwise best_states is unchanged. -/
theorem c2_best_loss_tracking {P : Type} (es : List (Option (ℚ × P)))
    (lk : ℚ) (pk : P) :
    (∃ m, (trainRun (es ++ [some (lk, pk)])).bestLoss = some m
      ∧ m ∈ ((es.filterMap id).map Prod.fst) ++ [lk]
      ∧ ∀ x ∈ ((es.filterMap id).map Prod.fst) ++ [lk], m ≤ x)
    ∧ (trainRun (es ++ [some (lk, pk)])).bestStates
        = (if ∀ x ∈ (es.filterMap id).map Prod.fst, lk ≤ x
           then some (copy_state pk)
           else (trainRun es).bestStates) := by
  have happ : trainRun (es ++ [some (lk, pk)])
      = epochStep (trainRun es) (some (lk, pk)) := by
    rw [trainRun, List.foldl_append, List.foldl_cons, List.foldl_nil]
    rfl
  have hpull : pull_metric (trainRun es).history
      = (es.filterMap id).map Prod.fst := by
    rw [trainRun, foldl_epochStep_history]
    simpa [trainLoopInit] using pull_metric_map_fst es
  constructor
  · refine ⟨pymin ((es.filterMap id).map Prod.fst) lk, ?_, ?_, ?_⟩
    · rw [happ]
      simp only [epochStep, hpull]
    · rcases pymin_mem ((es.filterMap id).map Prod.fst) lk with h | h
      · exact List.mem_append_left _ h
      · rw [h]; exact List.mem_append_right _ (List.mem_singleton_self lk)
    · intro x hx
      rcases List.mem_append.mp hx with h | h
      · exact pymin_le_mem _ lk x h
      · rw [List.mem_singleton.mp h]
        exact pymin_le _ lk
  · rw [happ]
    simp only [epochStep, hpull]
    by_cases hall : ∀ x ∈ (es.filterMap id).map Prod.fst, lk ≤ x
    · rw [if_pos ((pymin_eq_self_iff _ lk).mpr hall), if_pos hall]
    · rw [if_neg (fun h => hall ((pymin_eq_self_iff _ lk).mp h)),
        if_neg hall]

theorem ne_append_tmp (s : String) : s ≠ s ++ ".tmp" := by
  intro hcontra
  have hlen := congrArg String.length hcontra
  rw [String.length_append] at hlen
  have h4 : String.length ".tmp" = 4 := rfl
  omega

theorem touches_write_iff {C : Type} (p q : String) (c : C) :
    touches p (FOp.write q c) ↔ q = p := Iff.rfl

theorem touches_rename_iff {C : Type} (p s d : String) :
    @touches C p (FOp.rename s d) ↔ (s = p ∨ d = p) := Iff.rfl

theorem applyFOp_untouched {C : Type} (fs : String → Option C) (op : FOp C)
    (p : String) (h : ¬ touches p op) : applyFOp fs op p = fs p := by
  cases op with
  | write q c =>
    rw [touches_write_iff] at h
    simp only [applyFOp]
    rw [if_neg (fun hh => h hh.symm)]
  | rename s d =>
    rw [touches_rename_iff] at h
    push_neg at h
    simp only [applyFOp]
    rw [if_neg (fun hh => h.2 hh.symm), if_neg (fun hh => h.1 hh.symm)]

theorem runFOps_cons {C : Type} (fs : String → Option C) (op : FOp C)
    (ops : List (FOp C)) : runFOps fs (op :: ops) = runFOps (applyFOp fs op) ops :=
  rfl

theorem runFOps_untouched {C : Type} (fs : String → Option C)
    (ops : List (FOp C)) (p : String) (h : ∀ op ∈ ops, ¬ touches p op) :
    runFOps fs ops p = fs p := by
  induction ops generalizing fs with
  | nil => rfl
  | cons op ops ih =>
    rw [runFOps_cons]
    rw [ih (applyFOp fs op) (fun op2 h2 => h op2 (List.mem_cons_of_mem op h2))]
    exact applyFOp_untouched fs op p (h op (List.mem_cons_self op ops))

/-- C3: checkpoint persistence never exposes a partially written checkpoint
at a canonical path.  The operation list of _serialize writes the full
five-component package to a temporary path and installs it with a single
rename, and each per-model best artifact follows the same temp-then-rename
discipline: any prefix of the operation list (a crash point) that does not
contain the rename installing a given canonical file leaves that canonical
file unchanged, and the complete run installs the full package at the
canonical checkpoint path.  The hypotheses state that the distinct canonical
files and temporaries do not collide, as the path construction of the source
assumes. -/
theorem c3_serialize_atomic {M O H B A Cm : Type}
    (fs : String → Option (FileContent M O H (List (String × B)) A Cm))
    (ckpt bestParent bestName : String) (m : M) (o : O) (h : H) (a : A)
    (bestStates : List (String × B)) (modelWithBest : String → B → Cm)
    (hck : ∀ nb ∈ bestStates,
      ckpt ≠ bestArtifactPath bestParent bestName nb.1
      ∧ ckpt ≠ bestArtifactPath bestParent bestName nb.1 ++ ".tmp"
      ∧ bestArtifactPath bestParent bestName nb.1 ≠ ckpt ++ ".tmp")
    (hbb : ∀ nb ∈ bestStates, ∀ nb2 ∈ bestStates, nb.1 ≠ nb2.1 →
      bestArtifactPath bestParent bestName nb.1
          ≠ bestArtifactPath bestParent bestName nb2.1
      ∧ bestArtifactPath bestParent bestName nb.1
          ≠ bestArtifactPath bestParent bestName nb2.1 ++ ".tmp") :
    (∀ k, (∀ op ∈ (serializeOps ckpt bestParent bestName m o h a bestStates
        modelWithBest).take k, ∀ src, op ≠ FOp.rename src ckpt) →
      runFOps fs ((serializeOps ckpt bestParent bestName m o h a bestStates
        modelWithBest).take k) ckpt = fs ckpt)
    ∧ (∀ nb ∈ bestStates, ∀ k,
      (∀ op ∈ (serializeOps ckpt bestParent bestName m o h a bestStates
          modelWithBest).take k, ∀ src,
        op ≠ FOp.rename src (bestArtifactPath bestParent bestName nb.1)) →
      runFOps fs ((serializeOps ckpt bestParent bestName m o h a bestStates
          modelWithBest).take k) (bestArtifactPath bestParent bestName nb.1)
        = fs (bestArtifactPath bestParent bestName nb.1))
    ∧ runFOps fs (serializeOps ckpt bestParent bestName m o h a bestStates
        modelWithBest) ckpt
      = some (FileContent.package ⟨m, o, h, bestStates, a⟩) := by
  have hmem : ∀ op ∈ serializeOps ckpt bestParent bestName m o h a bestStates
      modelWithBest,
      op = FOp.write (ckpt ++ ".tmp")
          (FileContent.package ⟨m, o, h, bestStates, a⟩)
      ∨ op = FOp.rename (ckpt ++ ".tmp") ckpt
      ∨ ∃ nb ∈ bestStates,
        op = FOp.write (bestArtifactPath bestParent bestName nb.1 ++ ".tmp")
            (FileContent.bestModel (modelWithBest nb.1 nb.2))
        ∨ op = FOp.rename (bestArtifactPath bestParent bestName nb.1 ++ ".tmp")
            (bestArtifactPath bestParent bestName nb.1) := by
    intro op hop
    simp only [serializeOps, List.cons_append, List.nil_append,
      List.mem_cons, List.mem_flatMap, List.mem_singleton] at hop
    rcases hop with h1 | h1 | h1
    · exact Or.inl h1
    · exact Or.inr (Or.inl h1)
    · refine Or.inr (Or.inr ?_)
      obtain ⟨nb, hnb, hop2⟩ := h1
      refine ⟨nb, hnb, ?_⟩
      rcases hop2 with h2 | h2 | h2
      · exact Or.inl h2
      · exact Or.inr h2
      · exact absurd h2 (List.not_mem_nil op)
  constructor
  · intro k hk
    refine runFOps_untouched fs _ ckpt ?_
    intro op hop
    have hopfull := List.mem_of_mem_take hop
    rcases hmem op hopfull with h1 | h1 | ⟨nb, hnb, h1 | h1⟩
    · rw [h1, touches_write_iff]
      exact fun hh => (ne_append_tmp ckpt) hh.symm
    · exact absurd h1 (hk op hop (ckpt ++ ".tmp"))
    · rw [h1, touches_write_iff]
      exact fun hh => (hck nb hnb).2.1 hh.symm
    · rw [h1, touches_rename_iff]
      intro hh
      rcases hh with hh | hh
      · exact (hck nb hnb).2.1 hh.symm
      · exact (hck nb hnb).1 hh.symm
  constructor
  · intro nb hnb k hk
    refine runFOps_untouched fs _ _ ?_
    intro op hop
    have hopfull := List.mem_of_mem_take hop
    rcases hmem op hopfull with h1 | h1 | ⟨nb2, hnb2, h1 | h1⟩
    · rw [h1, touches_write_iff]
      exact fun hh => (hck nb hnb).2.2 hh.symm
    · rw [h1, touches_rename_iff]
      intro hh
      rcases hh with hh | hh
      · exact (hck nb hnb).2.2 hh.symm
      · exact (hck nb hnb).1 hh
    · rw [h1, touches_write_iff]
      intro hh
      by_cases hname : nb2.1 = nb.1
      · rw [hname] at hh
        exact (ne_append_tmp (bestArtifactPath bestParent bestName nb.1)) hh.symm
      · exact (hbb nb hnb nb2 hnb2 (fun he => hname he.symm)).2 hh.symm
    · by_cases hname : nb2.1 = nb.1
      · rw [h1, hname] at hop
        exact absurd rfl (hk _ hop _)
      · rw [h1, touches_rename_iff]
        intro hh
        rcases hh with hh | hh
        · exact (hbb nb hnb nb2 hnb2 (fun he => hname he.symm)).2 hh.symm
        · exact (hbb nb hnb nb2 hnb2 (fun he => hname he.symm)).1 hh.symm
  · have hrest : ∀ op ∈ bestStates.flatMap (fun nb =>
        [FOp.write (bestArtifactPath bestParent bestName nb.1 ++ ".tmp")
            (FileContent.bestModel (modelWithBest nb.1 nb.2)
              : FileContent M O H (List (String × B)) A Cm),
          FOp.rename (bestArtifactPath bestParent bestName nb.1 ++ ".tmp")
            (bestArtifactPath bestParent bestName nb.1)]),
        ¬ touches ckpt op := by
      intro op hop
      simp only [List.mem_flatMap, List.mem_cons, List.mem_singleton] at hop
      obtain ⟨nb, hnb, hop2⟩ := hop
      rcases hop2 with h1 | h1 | h1
      · rw [h1, touches_write_iff]
        exact fun hh => (hck nb hnb).2.1 hh.symm
      · rw [h1, touches_rename_iff]
        intro hh
        rcases hh with hh | hh
        · exact (hck nb hnb).2.1 hh.symm
        · exact (hck nb hnb).1 hh.symm
      · exact absurd h1 (List.not_mem_nil op)
    rw [serializeOps]
    simp only [List.cons_append, List.nil_append]
    rw [runFOps_cons, runFOps_cons, runFOps_untouched _ _ _ hrest]
    simp [applyFOp]

/-- C3 witness: a concrete serialize run over an empty store with one model
in best_states, concrete distinct paths, and crash points before each
rename. -/
theorem c3_serialize_atomic_witness :
    ((∀ nb ∈ ([("generator", 9)] : List (String × ℕ)),
      "ckpt.th" ≠ bestArtifactPath "out" "best.th" nb.1
      ∧ "ckpt.th" ≠ bestArtifactPath "out" "best.th" nb.1 ++ ".tmp"
      ∧ bestArtifactPath "out" "best.th" nb.1 ≠ "ckpt.th" ++ ".tmp")
    ∧ (∀ nb ∈ ([("generator", 9)] : List (String × ℕ)),
        ∀ nb2 ∈ ([("generator", 9)] : List (String × ℕ)), nb.1 ≠ nb2.1 →
      bestArtifactPath "out" "best.th" nb.1
          ≠ bestArtifactPath "out" "best.th" nb2.1
      ∧ bestArtifactPath "out" "best.th" nb.1
          ≠ bestArtifactPath "out" "best.th" nb2.1 ++ ".tmp"))
    ∧ ((∀ k, (∀ op ∈ (serializeOps "ckpt.th" "out" "best.th" (1 : ℕ) (2 : ℕ)
        (3 : ℕ) (4 : ℕ) [("generator", 9)] (fun _ b => b)).take k, ∀ src,
          op ≠ FOp.rename src "ckpt.th") →
      runFOps (fun _ => none) ((serializeOps "ckpt.th" "out" "best.th"
        (1 : ℕ) (2 : ℕ) (3 : ℕ) (4 : ℕ) [("generator", 9)]
        (fun _ b => b)).take k) "ckpt.th" = (fun _ => none : String →
          Option (FileContent ℕ ℕ ℕ (List (String × ℕ)) ℕ ℕ)) "ckpt.th")
    ∧ (∀ nb ∈ ([("generator", 9)] : List (String × ℕ)), ∀ k,
      (∀ op ∈ (serializeOps "ckpt.th" "out" "best.th" (1 : ℕ) (2 : ℕ)
          (3 : ℕ) (4 : ℕ) [("generator", 9)] (fun _ b => b)).take k, ∀ src,
        op ≠ FOp.rename src (bestArtifactPath "out" "best.th" nb.1)) →
      runFOps (fun _ => none) ((serializeOps "ckpt.th" "out" "best.th"
          (1 : ℕ) (2 : ℕ) (3 : ℕ) (4 : ℕ) [("generator", 9)]
          (fun _ b => b)).take k) (bestArtifactPath "out" "best.th" nb.1)
        = (fun _ => none : String →
            Option (FileContent ℕ ℕ ℕ (List (String × ℕ)) ℕ ℕ))
            (bestArtifactPath "out" "best.th" nb.1))
    ∧ runFOps (fun _ => none) (serializeOps "ckpt.th" "out" "best.th"
        (1 : ℕ) (2 : ℕ) (3 : ℕ) (4 : ℕ) [("generator", 9)] (fun _ b => b))
        "ckpt.th"
      = some (FileContent.package ⟨1, 2, 3, [("generator", 9)], 4⟩)) := by
  constructor
  · constructor
    · intro nb hnb
      simp only [List.mem_singleton] at hnb
      subst hnb
      refine ⟨by decide, by decide, by decide⟩
    · intro nb hnb nb2 hnb2 hne
      simp only [List.mem_singleton] at hnb hnb2
      subst hnb; subst hnb2
      exact absurd rfl hne
  · exact c3_serialize_atomic (fun _ => none) "ckpt.th" "out" "best.th"
      1 2 3 4 [("generator", 9)] (fun _ b => b)
      (by intro nb hnb
          simp only [List.mem_singleton] at hnb
          subst hnb
          refine ⟨by decide, by decide, by decide⟩)
      (by intro nb hnb nb2 hnb2 hne
          simp only [List.mem_singleton] at hnb hnb2
          subst hnb; subst hnb2
          exact absurd rfl hne)

theorem sum_flatMap_mul {α β : Type} (c : ℚ) (g : α → List β) (f : α → β → ℚ)
    (l : List α) :
    (l.flatMap (fun i => (g i).map (fun j => c * f i j))).sum
      = c * (l.flatMap (fun i => (g i).map (fun j => f i j))).sum := by
  induction l with
  | nil => simp
  | cons x xs ih =>
    simp only [List.flatMap_cons, List.sum_append, ih, list_sum_map_mul]
    ring

/-- C7 counterexample: for the stft variant, the feature-matching loss on a
concrete three-layer discriminator output (two internal layers, both with L1
distance 1) is 1, while the weight claimed for the hinge family,
(4 / (num_internal_layers + 1)) x (1 / num_scales) applied to every layer
term, would give 8/3. -/
theorem c7_counterexample :
    (stft_feature_loss
        [(⟨0, false⟩ : T), ⟨0, false⟩, ⟨0, false⟩]
        [(⟨1, false⟩ : T), ⟨1, false⟩, ⟨0, false⟩]).val = 1
    ∧ claimedFeatureWeight
        (([(⟨1, false⟩ : T), ⟨1, false⟩, ⟨0, false⟩]).length - 1) 1
        * (|(1 : ℚ) - 0| + |(1 : ℚ) - 0|) = 8 / 3
    ∧ (1 : ℚ) ≠ 8 / 3 := by
  refine ⟨?_, ?_, by norm_num⟩
  · simp [stft_feature_loss, tsum, tdiv, tl1, tdetach, pyAt, tadd, tzero,
      List.range_succ]
  · simp [claimedFeatureWeight]
    norm_num

/-- C7 amended: the melgan feature-matching loss is the claimed weighted sum,
with weight (4 / (n_layers + 1)) x (1 / num_D) on every layer term; the stft
feature-matching loss instead weights every layer term by
1 / num_internal_layers (the mean over internal layers), which differs from
the claimed weight whenever at least one internal layer exists and the summed
L1 distance is nonzero. -/
theorem c7_feature_weights :
    (∀ (fake real : List (List T)) (nLayers numD : ℕ),
      (tsum (melganFeatureTerms ((1 / (numD : ℚ)) * (4 / ((nLayers : ℚ) + 1)))
          fake real numD)).val
        = claimedFeatureWeight nLayers numD
          * ((List.range numD).flatMap (fun i =>
              (List.range ((pyAtL fake i).length - 1)).map (fun j =>
                |(pyAt (pyAtL fake i) j).val - (pyAt (pyAtL real i) j).val|))).sum)
    ∧ (∀ (fake real : List T),
      (stft_feature_loss real fake).val
        = ((List.range (fake.length - 1)).map (fun i =>
            |(pyAt fake i).val - (pyAt real i).val|)).sum
          / ((fake.length - 1 : ℕ) : ℚ))
    ∧ (∀ (fake real : List T), 1 ≤ fake.length - 1 →
      ((List.range (fake.length - 1)).map (fun i =>
          |(pyAt fake i).val - (pyAt real i).val|)).sum ≠ 0 →
      (stft_feature_loss real fake).val
        ≠ claimedFeatureWeight (fake.length - 1) 1
          * ((List.range (fake.length - 1)).map (fun i =>
              |(pyAt fake i).val - (pyAt real i).val|)).sum) := by
  have hstft : ∀ (fake real : List T),
      (stft_feature_loss real fake).val
        = ((List.range (fake.length - 1)).map (fun i =>
            |(pyAt fake i).val - (pyAt real i).val|)).sum
          / ((fake.length - 1 : ℕ) : ℚ) := by
    intro fake real
    have hmap : (List.range (fake.length - 1)).map
        ((fun t : T => t.val) ∘ fun i => tl1 (pyAt fake i) (tdetach (pyAt real i)))
        = (List.range (fake.length - 1)).map
            (fun i => |(pyAt fake i).val - (pyAt real i).val|) := by
      apply List.map_congr_left
      intro i _
      simp [Function.comp, tl1, tdetach]
    simp only [stft_feature_loss, tdiv, tsum_val, List.map_map, hmap]
  refine ⟨?_, hstft, ?_⟩
  · intro fake real nLayers numD
    rw [tsum_val, melganFeatureTerms, List.map_flatMap]
    have hfun : (fun i =>
        (((List.range ((pyAtL fake i).length - 1)).map (fun j =>
          tsmul ((1 / (numD : ℚ)) * (4 / ((nLayers : ℚ) + 1)))
            (tl1 (pyAt (pyAtL fake i) j)
              (tdetach (pyAt (pyAtL real i) j))))).map (fun t => t.val)))
        = (fun i => (List.range ((pyAtL fake i).length - 1)).map (fun j =>
            ((1 / (numD : ℚ)) * (4 / ((nLayers : ℚ) + 1)))
            * |(pyAt (pyAtL fake i) j).val - (pyAt (pyAtL real i) j).val|)) := by
      funext i
      rw [List.map_map]
      apply List.map_congr_left
      intro j _
      simp [tsmul, tl1, tdetach, Function.comp]
    rw [hfun]
    rw [sum_flatMap_mul ((1 / (numD : ℚ)) * (4 / ((nLayers : ℚ) + 1)))
      (fun i => List.range ((pyAtL fake i).length - 1))
      (fun i j => |(pyAt (pyAtL fake i) j).val - (pyAt (pyAtL real i) j).val|)
      (List.range numD)]
    rw [claimedFeatureWeight]
    ring
  · intro fake real hn hS
    rw [hstft fake real]
    simp only [claimedFeatureWeight, Nat.cast_one]
    intro heq
    have hn0 : ((fake.length - 1 : ℕ) : ℚ) ≠ 0 := Nat.cast_ne_zero.mpr (by omega)
    have hn1 : (((fake.length - 1 : ℕ) : ℚ) + 1) ≠ 0 := by positivity
    rw [div_one, mul_one] at heq
    field_simp at heq
    have hfactor : ((List.range (fake.length - 1)).map (fun i =>
        |(pyAt fake i).val - (pyAt real i).val|)).sum
        * (3 * ((fake.length - 1 : ℕ) : ℚ) - 1) = 0 := by
      linear_combination -heq
    rcases mul_eq_zero.mp hfactor with h | h
    · exact hS h
    · have h3 : (3 * ((fake.length - 1 : ℕ) : ℚ)) = 1 := by linarith
      have h4 : (3 * (fake.length - 1) : ℕ) = 1 := by exact_mod_cast h3
      omega

/-- C7 witness: the divergent stft instance of the amended statement at a
concrete two-layer discriminator output with one internal layer. -/
theorem c7_feature_weights_witness :
    (1 ≤ ([(⟨1, false⟩ : T), ⟨0, false⟩]).length - 1
      ∧ ((List.range (([(⟨1, false⟩ : T), ⟨0, false⟩]).length - 1)).map
          (fun i => |(pyAt [(⟨1, false⟩ : T), ⟨0, false⟩] i).val
            - (pyAt [(⟨0, false⟩ : T), ⟨0, false⟩] i).val|)).sum ≠ 0)
    ∧ (stft_feature_loss [(⟨0, false⟩ : T), ⟨0, false⟩]
        [(⟨1, false⟩ : T), ⟨0, false⟩]).val
      ≠ claimedFeatureWeight (([(⟨1, false⟩ : T), ⟨0, false⟩]).length - 1) 1
        * ((List.range (([(⟨1, false⟩ : T), ⟨0, false⟩]).length - 1)).map
            (fun i => |(pyAt [(⟨1, false⟩ : T), ⟨0, false⟩] i).val
              - (pyAt [(⟨0, false⟩ : T), ⟨0, false⟩] i).val|)).sum :=
  ⟨⟨by decide, by simp [pyAt, List.range_succ, tzero]⟩,
    c7_feature_weights.2.2 _ _ (by decide)
      (by simp [pyAt, List.range_succ, tzero])⟩

/-- C4 counterexample: for the hifi variant with only_features_loss set, the
generator-side loss on a concrete discriminator and prediction differs from
the claim-side definition that always includes the mel term: the code returns
only the two feature-matching terms. -/
theorem c4_counterexample :
    (hifiAdversarialLoss ⟨fun _ => [0], fun q => [[q]]⟩
        ⟨fun _ => [0], fun q => [[q]]⟩ (fun q => q) 1 true
        ⟨1, true⟩ ⟨0, false⟩).1
      ≠ (hifiAdversarialLossPerClaim ⟨fun _ => [0], fun q => [[q]]⟩
          ⟨fun _ => [0], fun q => [[q]]⟩ (fun q => q) 1 true
          ⟨1, true⟩ ⟨0, false⟩).1 := by
  intro hcontra
  have hval := congrArg T.val hcontra
  simp [hifiAdversarialLoss, hifiAdversarialLossPerClaim, feature_loss,
    discFmaps, discOuts, generator_loss, discriminator_loss, tl1, tdetach,
    tdiv, tsum, tadd, tzero, tsmul, melF] at hval

/-- C4 amended: the mbd generator loss always includes the mel L1 term
(additively, with weight mel_spec_loss_lambda); the hifi generator loss
includes it exactly when only_features_loss is unset: with the flag set the
hifi generator loss is independent of the mel transform. -/
theorem c4_mel_term_inclusion (mpd msd d : HifiDisc) (melLam : ℚ)
    (pr hr : T) :
    (∃ x : ℚ, ∀ mel : ℚ → ℚ,
      ((hifiAdversarialLoss mpd msd mel melLam false pr hr).1).val
        = x + melLam * |mel hr.val - mel pr.val|)
    ∧ (∃ x : ℚ, ∀ mel : ℚ → ℚ,
      ((hifiAdversarialLoss mpd msd mel melLam true pr hr).1).val = x)
    ∧ (∃ x : ℚ, ∀ mel : ℚ → ℚ,
      ((mbdAdversarialLoss d mel melLam pr hr).1).val
        = x + melLam * |mel hr.val - mel pr.val|) := by
  refine ⟨⟨(generator_loss (discOuts msd pr)).val
      + (generator_loss (discOuts mpd pr)).val
      + (feature_loss (discFmaps msd hr) (discFmaps msd pr)).val
      + (feature_loss (discFmaps mpd hr) (discFmaps mpd pr)).val, ?_⟩,
    ⟨(feature_loss (discFmaps msd hr) (discFmaps msd pr)).val
      + (feature_loss (discFmaps mpd hr) (discFmaps mpd pr)).val, ?_⟩,
    ⟨(generator_loss (discOuts d pr)).val
      + (feature_loss (discFmaps d hr) (discFmaps d pr)).val, ?_⟩⟩
  · intro mel
    simp [hifiAdversarialLoss, tadd, tsmul, tl1, melF]
  · intro mel
    simp [hifiAdversarialLoss, tadd]
  · intro mel
    simp [mbdAdversarialLoss, tadd, tsmul, tl1, melF]

theorem melganForward_att (f : ℚ → List (List ℚ)) (x : T) :
    ∀ s ∈ melganForward f x, ∀ t ∈ s, t.att = x.att := by
  intro s hs t ht
  simp [melganForward] at hs
  obtain ⟨l, _, rfl⟩ := hs
  simp at ht
  obtain ⟨v, _, rfl⟩ := ht
  rfl

theorem stftForward_att (g : ℚ → List ℚ) (x : T) :
    ∀ t ∈ stftForward g x, t.att = x.att := by
  intro t ht
  simp [stftForward] at ht
  obtain ⟨v, _, rfl⟩ := ht
  rfl

theorem scaleLast_att_false (s : List T) (h : ∀ t ∈ s, t.att = false) :
    (scaleLast s).att = false := by
  cases hl : s.getLast? with
  | none => simp [scaleLast, hl, tzero]
  | some t =>
    have ht : t ∈ s := by
      cases s with
      | nil => simp at hl
      | cons a l2 =>
        rw [List.getLast?_eq_getLast_of_ne_nil (List.cons_ne_nil a l2)] at hl
        rw [← Option.some.inj hl]
        exact List.getLast_mem (List.cons_ne_nil a l2)
    simp [scaleLast, hl, h t ht]

theorem scaleLast_map_tag_att (l : List ℚ) (b : Bool) (hl : l ≠ []) :
    (scaleLast (l.map (fun v => (⟨v, b⟩ : T)))).att = b := by
  rw [scaleLast, List.getLast?_map, List.getLast?_eq_getLast_of_ne_nil hl]
  simp

/-- C1: detachment discipline of every adversarial loss computation reachable
from _get_losses: with an attached prediction and a gradient-free target,
every discriminator loss (computed from the forward pass on the detached
prediction) carries no gradient back to the generator, and every
generator-side adversarial or feature-matching term (computed from the
forward pass on the attached prediction) does carry gradient back to the
generator, in the melgan, hifi, mbd, msd/mpd/spec and stft variants.  The
shape hypotheses state that the discriminators produce at least one scale,
one final logit and one internal feature map on the relevant inputs. -/
theorem c1_detachment_discipline
    (f : ℚ → List (List ℚ)) (mpd msd d : HifiDisc) (g : ℚ → List ℚ)
    (mel : ℚ → ℚ) (nLayers numD : ℕ) (lam melLam : ℚ)
    (onlyAdv onlyFeat : Bool) (pr hr prS hrS : T)
    (hpr : pr.att = true) (hhr : hr.att = false)
    (hprS : prS.att = true) (hhrS : hrS.att = false)
    (hmel1 : f pr.val ≠ []) (hmel2 : 2 ≤ ((f pr.val).headI).length)
    (hmel3 : 1 ≤ numD)
    (hmpd1 : mpd.fmaps pr.val ≠ []) (hmpd2 : mpd.fmaps hr.val ≠ [])
    (hmpd3 : (mpd.fmaps pr.val).headI ≠ [])
    (hmpd4 : (mpd.fmaps hr.val).headI ≠ [])
    (hd1 : d.outs pr.val ≠ [])
    (hd2 : d.fmaps pr.val ≠ []) (hd3 : d.fmaps hr.val ≠ [])
    (hd4 : (d.fmaps pr.val).headI ≠ []) (hd5 : (d.fmaps hr.val).headI ≠ [])
    (hstft1 : g prS.val ≠ []) :
    ((melganAdversarialLoss f nLayers numD lam onlyAdv onlyFeat pr hr).2.att
        = false)
    ∧ (∀ t, (melganAdversarialLoss f nLayers numD lam onlyAdv onlyFeat
        pr hr).1.adversarial = some t → t.att = true)
    ∧ (∀ t, (melganAdversarialLoss f nLayers numD lam onlyAdv onlyFeat
        pr hr).1.features = some t → t.att = true)
    ∧ ((hifiAdversarialLoss mpd msd mel melLam onlyFeat pr hr).2.att = false)
    ∧ ((hifiAdversarialLoss mpd msd mel melLam onlyFeat pr hr).1.att = true)
    ∧ ((mbdAdversarialLoss d mel melLam pr hr).2.att = false)
    ∧ ((mbdAdversarialLoss d mel melLam pr hr).1.att = true)
    ∧ ((lsDiscAdversarialLoss d lam onlyAdv onlyFeat pr hr).2.att = false)
    ∧ (∀ t, (lsDiscAdversarialLoss d lam onlyAdv onlyFeat pr hr).1.adversarial
        = some t → t.att = true)
    ∧ (∀ t, (lsDiscAdversarialLoss d lam onlyAdv onlyFeat pr hr).1.features
        = some t → t.att = true)
    ∧ ((stftAdversarialLoss g lam prS hrS).2.att = false)
    ∧ ((stftAdversarialLoss g lam prS hrS).1.att = true) := by
  have hdiscfalse : ∀ dd : HifiDisc,
      (discriminator_loss (discOuts dd hr) (discOuts dd (tdetach pr))).att
        = false := by
    intro dd
    rw [discriminator_loss_att]
    apply List.any_eq_false.mpr
    intro rg hrg
    obtain ⟨r, g2⟩ := rg
    obtain ⟨h1, h2⟩ := List.of_mem_zip hrg
    have e1 := discOuts_att dd hr r h1
    have e2 := discOuts_att dd (tdetach pr) g2 h2
    simp [e1, e2, hhr, tdetach]
  have hfeattrue : ∀ dd : HifiDisc, dd.fmaps pr.val ≠ [] →
      dd.fmaps hr.val ≠ [] → (dd.fmaps pr.val).headI ≠ [] →
      (dd.fmaps hr.val).headI ≠ [] →
      (feature_loss (discFmaps dd hr) (discFmaps dd pr)).att = true := by
    intro dd hp hh hph hhh
    rw [feature_loss_att]
    apply List.any_eq_true.mpr
    obtain ⟨fmh, fmhrest, hfmh⟩ := List.exists_cons_of_ne_nil hh
    obtain ⟨fmp, fmprest, hfmp⟩ := List.exists_cons_of_ne_nil hp
    refine ⟨(fmh.map (fun v => (⟨v, hr.att⟩ : T)),
      fmp.map (fun v => (⟨v, pr.att⟩ : T))), ?_, ?_⟩
    · simp [discFmaps, hfmh, hfmp]
    · apply List.any_eq_true.mpr
      have hfmpne : fmp ≠ [] := by rw [hfmp] at hph; simpa using hph
      have hfmhne : fmh ≠ [] := by rw [hfmh] at hhh; simpa using hhh
      obtain ⟨vh, vhs, hvh⟩ := List.exists_cons_of_ne_nil hfmhne
      obtain ⟨vp, vps, hvp⟩ := List.exists_cons_of_ne_nil hfmpne
      refine ⟨(⟨vh, hr.att⟩, ⟨vp, pr.att⟩), ?_, by simp [hpr]⟩
      simp [hvh, hvp]
  have hgentrue : ∀ dd : HifiDisc, dd.outs pr.val ≠ [] →
      (generator_loss (discOuts dd pr)).att = true := by
    intro dd hne
    rw [generator_loss_att]
    apply List.any_eq_true.mpr
    obtain ⟨v, vs, hv⟩ := List.exists_cons_of_ne_nil hne
    exact ⟨⟨v, pr.att⟩, by simp [discOuts, hv], by simp [hpr]⟩
  have hscale_false : ∀ x : T, x.att = false → ∀ scale ∈ melganForward f x,
      (scaleLast scale).att = false := by
    intro x hx scale hscale
    apply scaleLast_att_false
    intro t ht
    rw [melganForward_att f x scale hscale t ht, hx]
  have hmelgandisc : (melganDiscriminatorLoss (melganForward f (tdetach pr))
      (melganForward f hr)).att = false := by
    simp only [melganDiscriminatorLoss, tadd, tsum_att, list_any_map]
    rw [Bool.or_eq_false_iff]
    constructor
    · apply List.any_eq_false.mpr
      intro scale hscale
      simp [trelu, tadd, tone, hscale_false (tdetach pr) rfl scale hscale]
    · apply List.any_eq_false.mpr
      intro scale hscale
      simp [trelu, tsub, tone, hscale_false hr hhr scale hscale]
  obtain ⟨s0, srest, hs0⟩ := List.exists_cons_of_ne_nil hmel1
  have hs0len : 2 ≤ s0.length := by rw [hs0] at hmel2; simpa using hmel2
  have hs0ne : s0 ≠ [] := by
    intro hcontra
    rw [hcontra] at hs0len
    simp at hs0len
  have hmelganadv : (tsum ((melganForward f pr).map
      (fun scale => trelu (tsub tone (scaleLast scale))))).att = true := by
    rw [tsum_att, list_any_map]
    apply List.any_eq_true.mpr
    refine ⟨s0.map (fun v => (⟨v, true⟩ : T)),
      by simp [melganForward, hs0, hpr], ?_⟩
    simp [trelu, tsub, tone, scaleLast_map_tag_att s0 true hs0ne]
  obtain ⟨v0, v0s, hv0⟩ := List.exists_cons_of_ne_nil hs0ne
  have hmelganfeat : ∀ w : ℚ, (tsum (melganFeatureTerms w
      (melganForward f pr) (melganForward f hr) numD)).att = true := by
    intro w
    rw [tsum_att]
    apply List.any_eq_true.mpr
    refine ⟨tsmul w (tl1 (pyAt (pyAtL (melganForward f pr) 0) 0)
      (tdetach (pyAt (pyAtL (melganForward f hr) 0) 0))), ?_, ?_⟩
    · rw [melganFeatureTerms]
      apply List.mem_flatMap.mpr
      refine ⟨0, List.mem_range.mpr (by omega), ?_⟩
      apply List.mem_map.mpr
      refine ⟨0, List.mem_range.mpr ?_, rfl⟩
      have hfirst : pyAtL (melganForward f pr) 0
          = s0.map (fun v => (⟨v, pr.att⟩ : T)) := by
        simp [pyAtL, melganForward, hs0]
      rw [hfirst, List.length_map]
      omega
    · have haccess : pyAt (pyAtL (melganForward f pr) 0) 0
          = ⟨v0, pr.att⟩ := by
        simp [pyAt, pyAtL, melganForward, hs0, hv0]
      simp [tsmul, tl1, tdetach, haccess, hpr]
  refine ⟨?_, ?_, ?_, ?_, ?_, ?_, ?_, ?_, ?_, ?_, ?_, ?_⟩
  · exact hmelgandisc
  · intro t h
    simp only [melganAdversarialLoss, melganGeneratorLoss] at h
    cases honlyAdv : onlyAdv with
    | true =>
      rw [honlyAdv] at h
      simp at h
      rw [← h]
      exact hmelganadv
    | false =>
      rw [honlyAdv] at h
      cases honlyFeat : onlyFeat with
      | true =>
        rw [honlyFeat] at h
        simp at h
      | false =>
        rw [honlyFeat] at h
        simp at h
        rw [← h]
        exact hmelganadv
  · intro t h
    simp only [melganAdversarialLoss, melganGeneratorLoss] at h
    cases honlyAdv : onlyAdv with
    | true =>
      rw [honlyAdv] at h
      simp at h
    | false =>
      rw [honlyAdv] at h
      cases honlyFeat : onlyFeat with
      | true =>
        rw [honlyFeat] at h
        simp at h
        rw [← h]
        simp [tsmul, hmelganfeat]
      | false =>
        rw [honlyFeat] at h
        simp at h
        rw [← h]
        simp [tsmul, hmelganfeat]
  · show (tadd
      (discriminator_loss (discOuts msd hr) (discOuts msd (tdetach pr)))
      (discriminator_loss (discOuts mpd hr) (discOuts mpd (tdetach pr)))).att
        = false
    simp [tadd, hdiscfalse msd, hdiscfalse mpd]
  · cases honlyFeat : onlyFeat with
    | true =>
      simp [hifiAdversarialLoss, honlyFeat, tadd,
        hfeattrue mpd hmpd1 hmpd2 hmpd3 hmpd4]
    | false =>
      simp [hifiAdversarialLoss, honlyFeat, tadd, tsmul, tl1, melF, hpr]
  · exact hdiscfalse d
  · show (tadd (tadd (generator_loss (discOuts d pr))
      (feature_loss (discFmaps d hr) (discFmaps d pr)))
      (tsmul melLam (tl1 (melF mel hr) (melF mel pr)))).att = true
    simp [tadd, tsmul, tl1, melF, hpr]
  · exact hdiscfalse d
  · intro t h
    simp only [lsDiscAdversarialLoss] at h
    cases honlyAdv : onlyAdv with
    | true =>
      rw [honlyAdv] at h
      simp at h
      rw [← h]
      exact hgentrue d hd1
    | false =>
      rw [honlyAdv] at h
      cases honlyFeat : onlyFeat with
      | true =>
        rw [honlyFeat] at h
        simp at h
      | false =>
        rw [honlyFeat] at h
        simp at h
        rw [← h]
        exact hgentrue d hd1
  · intro t h
    simp only [lsDiscAdversarialLoss] at h
    cases honlyAdv : onlyAdv with
    | true =>
      rw [honlyAdv] at h
      simp at h
    | false =>
      rw [honlyAdv] at h
      cases honlyFeat : onlyFeat with
      | true =>
        rw [honlyFeat] at h
        simp at h
        rw [← h]
        simp [tsmul, hfeattrue d hd2 hd3 hd4 hd5]
      | false =>
        rw [honlyFeat] at h
        simp at h
        rw [← h]
        simp [tsmul, hfeattrue d hd2 hd3 hd4 hd5]
  · have hfd : (scaleLast (stftForward g (tdetach prS))).att = false :=
      scaleLast_att_false _ (fun t ht => by
        rw [stftForward_att g (tdetach prS) t ht]; rfl)
    have hrl : (scaleLast (stftForward g hrS)).att = false :=
      scaleLast_att_false _ (fun t ht => by
        rw [stftForward_att g hrS t ht, hhrS])
    show (stftDiscriminatorLoss (stftForward g (tdetach prS))
      (stftForward g hrS)).att = false
    simp [stftDiscriminatorLoss, tadd, trelu, tsub, tone, hfd, hrl]
  · have hsl : (scaleLast (stftForward g prS)).att = prS.att := by
      rw [stftForward]
      exact scaleLast_map_tag_att (g prS.val) prS.att hstft1
    show (stftGeneratorLoss lam (stftForward g prS)
      (stftForward g hrS)).att = true
    simp [stftGeneratorLoss, tadd, trelu, tsub, tone, tsmul, hsl, hprS]

/-- C1 witness: the detachment discipline at a concrete one-scale, two-layer
melgan discriminator, a one-sub-discriminator hifi-style module, a one-logit
stft discriminator, the identity mel transform and an attached prediction. -/
theorem c1_detachment_discipline_witness :
    ((⟨1, true⟩ : T).att = true ∧ (⟨0, false⟩ : T).att = false
      ∧ (fun _ : ℚ => [[(0 : ℚ), 0]]) (⟨1, true⟩ : T).val ≠ [] ∧ 2 ≤ (((fun _ : ℚ => [[(0 : ℚ), 0]]) (⟨1, true⟩ : T).val).headI).length ∧ (1 : ℕ) ≤ 1
      ∧ ({ outs := fun _ : ℚ => [(0 : ℚ)], fmaps := fun _ : ℚ => [[(0 : ℚ)]] } : HifiDisc).fmaps (⟨1, true⟩ : T).val ≠ [] ∧ ({ outs := fun _ : ℚ => [(0 : ℚ)], fmaps := fun _ : ℚ => [[(0 : ℚ)]] } : HifiDisc).fmaps (⟨0, false⟩ : T).val ≠ []
      ∧ (({ outs := fun _ : ℚ => [(0 : ℚ)], fmaps := fun _ : ℚ => [[(0 : ℚ)]] } : HifiDisc).fmaps (⟨1, true⟩ : T).val).headI ≠ [] ∧ (({ outs := fun _ : ℚ => [(0 : ℚ)], fmaps := fun _ : ℚ => [[(0 : ℚ)]] } : HifiDisc).fmaps (⟨0, false⟩ : T).val).headI ≠ []
      ∧ ({ outs := fun _ : ℚ => [(0 : ℚ)], fmaps := fun _ : ℚ => [[(0 : ℚ)]] } : HifiDisc).outs (⟨1, true⟩ : T).val ≠ [] ∧ (fun _ : ℚ => [(0 : ℚ)]) (⟨1, true⟩ : T).val ≠ [])
    ∧ (((melganAdversarialLoss (fun _ : ℚ => [[(0 : ℚ), 0]]) 1 1 1 false false (⟨1, true⟩ : T) (⟨0, false⟩ : T)).2.att = false)
    ∧ (∀ t, (melganAdversarialLoss (fun _ : ℚ => [[(0 : ℚ), 0]]) 1 1 1 false false (⟨1, true⟩ : T) (⟨0, false⟩ : T)).1.adversarial
        = some t → t.att = true)
    ∧ (∀ t, (melganAdversarialLoss (fun _ : ℚ => [[(0 : ℚ), 0]]) 1 1 1 false false (⟨1, true⟩ : T) (⟨0, false⟩ : T)).1.features
        = some t → t.att = true)
    ∧ ((hifiAdversarialLoss ({ outs := fun _ : ℚ => [(0 : ℚ)], fmaps := fun _ : ℚ => [[(0 : ℚ)]] } : HifiDisc) ({ outs := fun _ : ℚ => [(0 : ℚ)], fmaps := fun _ : ℚ => [[(0 : ℚ)]] } : HifiDisc) (fun q : ℚ => q) 1 false (⟨1, true⟩ : T) (⟨0, false⟩ : T)).2.att = false)
    ∧ ((hifiAdversarialLoss ({ outs := fun _ : ℚ => [(0 : ℚ)], fmaps := fun _ : ℚ => [[(0 : ℚ)]] } : HifiDisc) ({ outs := fun _ : ℚ => [(0 : ℚ)], fmaps := fun _ : ℚ => [[(0 : ℚ)]] } : HifiDisc) (fun q : ℚ => q) 1 false (⟨1, true⟩ : T) (⟨0, false⟩ : T)).1.att = true)
    ∧ ((mbdAdversarialLoss ({ outs := fun _ : ℚ => [(0 : ℚ)], fmaps := fun _ : ℚ => [[(0 : ℚ)]] } : HifiDisc) (fun q : ℚ => q) 1 (⟨1, true⟩ : T) (⟨0, false⟩ : T)).2.att = false)
    ∧ ((mbdAdversarialLoss ({ outs := fun _ : ℚ => [(0 : ℚ)], fmaps := fun _ : ℚ => [[(0 : ℚ)]] } : HifiDisc) (fun q : ℚ => q) 1 (⟨1, true⟩ : T) (⟨0, false⟩ : T)).1.att = true)
    ∧ ((lsDiscAdversarialLoss ({ outs := fun _ : ℚ => [(0 : ℚ)], fmaps := fun _ : ℚ => [[(0 : ℚ)]] } : HifiDisc) 1 false false (⟨1, true⟩ : T) (⟨0, false⟩ : T)).2.att = false)
    ∧ (∀ t, (lsDiscAdversarialLoss ({ outs := fun _ : ℚ => [(0 : ℚ)], fmaps := fun _ : ℚ => [[(0 : ℚ)]] } : HifiDisc) 1 false false (⟨1, true⟩ : T) (⟨0, false⟩ : T)).1.adversarial
        = some t → t.att = true)
    ∧ (∀ t, (lsDiscAdversarialLoss ({ outs := fun _ : ℚ => [(0 : ℚ)], fmaps := fun _ : ℚ => [[(0 : ℚ)]] } : HifiDisc) 1 false false (⟨1, true⟩ : T) (⟨0, false⟩ : T)).1.features
        = some t → t.att = true)
    ∧ ((stftAdversarialLoss (fun _ : ℚ => [(0 : ℚ)]) 1 (⟨1, true⟩ : T) (⟨0, false⟩ : T)).2.att = false)
    ∧ ((stftAdversarialLoss (fun _ : ℚ => [(0 : ℚ)]) 1 (⟨1, true⟩ : T) (⟨0, false⟩ : T)).1.att = true)) :=
  ⟨by decide,
    c1_detachment_discipline (fun _ : ℚ => [[(0 : ℚ), 0]]) ({ outs := fun _ : ℚ => [(0 : ℚ)], fmaps := fun _ : ℚ => [[(0 : ℚ)]] } : HifiDisc) ({ outs := fun _ : ℚ => [(0 : ℚ)], fmaps := fun _ : ℚ => [[(0 : ℚ)]] } : HifiDisc) ({ outs := fun _ : ℚ => [(0 : ℚ)], fmaps := fun _ : ℚ => [[(0 : ℚ)]] } : HifiDisc) (fun _ : ℚ => [(0 : ℚ)]) (fun q : ℚ => q) 1 1 1 1 false false
      (⟨1, true⟩ : T) (⟨0, false⟩ : T) (⟨1, true⟩ : T) (⟨0, false⟩ : T) (by decide) (by decide) (by decide) (by decide)
      (by decide) (by decide) (by decide) (by decide) (by decide) (by decide)
      (by decide) (by decide) (by decide) (by decide) (by decide) (by decide)
      (by decide)⟩

end AeroSolver
